import Mathlib

/-!
Verification development for the nodetools transaction-ingestion core.

The Python sources embedded here:
- nodetools/configuration/constants.py (chunk-identifier pattern, distribution policies)
- nodetools/utilities/setup_utilities/init_db.py (extract_node_name, init_database drop guard)
- nodetools/protocols/encryption.py and nodetools/protocols/transaction_repository.py
  (Protocol declarations; their behaviour is modelled from the spec where noted)
- nodetools/prompts/rewards_manager.py (reward-response wire format)

The file is organised as definitions first, then theorems.
-/

/-! ## Definitions -/

/-! ### Chunk-amount distribution policies (constants.py, class PFTSendDistribution) -/

/-- Embedding of `PFTSendDistribution` from nodetools/configuration/constants.py:
the enumeration controlling how PFT amounts are distributed across memo chunks. -/
inductive PFTSendDistribution where
  | DISTRIBUTE_EVENLY
  | LAST_CHUNK_ONLY
  | FULL_AMOUNT_EACH
deriving DecidableEq

/-- Embedding of the `.value` strings of the Python enum members. -/
def PFTSendDistribution.value : PFTSendDistribution → String
  | .DISTRIBUTE_EVENLY => "distribute_evenly"
  | .LAST_CHUNK_ONLY => "last_chunk_only"
  | .FULL_AMOUNT_EACH => "full_amount_each"

/-! ### The version-1.0 chunk-identifier recognizer (constants.py, UNIQUE_ID_PATTERN_V1)

The Python source builds the recogniser with an f-string:
`UNIQUE_ID_PATTERN_V1 = re.compile(fr'(v{UNIQUE_ID_VERSION}\.(?: ... ))'`
with `UNIQUE_ID_VERSION = "1.0"`.  After interpolation the regex reads
`(v1.0\.(?: \d\d\d\d-\d\d-\d\d_\d\d:\d\d (?:__[A-Z0-9]X2,4X)? ))`
(with the braces of the counted repetitions written as X here).  Note that the
dot inside the interpolated version string is NOT escaped, so it is the regex
wildcard matching any character except a newline; only the dot written as a
backslash-dot after the version is a literal dot.  The optional shard-suffix
group can always match the empty string, so the pattern has a match inside a
string exactly when the mandatory core below occurs at some position. -/

/-- The timestamp tail of the mandatory regex core:
four digits, a dash, two digits, a dash, two digits, an underscore,
two digits, a colon, two digits.  Python backslash-d is modelled as an ASCII
digit (the identifiers the codec generates are ASCII timestamps). -/
def timestampCore : List Char → Bool
  | y1 :: y2 :: y3 :: y4 :: '-' :: m1 :: m2 :: '-' :: d1 :: d2 ::
      '_' :: h1 :: h2 :: ':' :: n1 :: n2 :: _ =>
    y1.isDigit && y2.isDigit && y3.isDigit && y4.isDigit &&
    m1.isDigit && m2.isDigit && d1.isDigit && d2.isDigit &&
    h1.isDigit && h2.isDigit && n1.isDigit && n2.isDigit
  | _ => false

/-- Whether the mandatory core of UNIQUE_ID_PATTERN_V1 matches at the head of
the character list: letter v, digit 1, ANY character other than a newline
(the unescaped dot of the interpolated version string), digit 0, a literal
dot, then the timestamp. -/
def matchesAtV1 : List Char → Bool
  | 'v' :: '1' :: c :: '0' :: '.' :: rest => (c != '\n') && timestampCore rest
  | _ => false

/-- Embedding of a `UNIQUE_ID_PATTERN_V1.search` success: the mandatory core
matches at some position of the string. -/
def search_unique_id_v1 : List Char → Bool
  | [] => false
  | c :: rest => matchesAtV1 (c :: rest) || search_unique_id_v1 rest

/-! ### ECDH shared-secret derivation (encryption.py, get_shared_secret) -/

/-- Modelled from the spec: the implementation of `get_shared_secret` is not
under src/ (encryption.py only declares the Protocol).  The spec describes it
as standard elliptic-curve Diffie–Hellman, so the curve is modelled as an
additive commutative monoid with scalar multiplication; a public key is the
scalar multiple of the shared generator by the private key. -/
def public_key {G : Type} [AddCommMonoid G] (g : G) (sk : ℕ) : G := sk • g

/-- Modelled from the spec: shared-secret derivation is the scalar multiple of
the counterpart public key by the local private key (elliptic-curve
Diffie–Hellman). -/
def get_shared_secret {G : Type} [AddCommMonoid G]
    (received_public_key : G) (channel_private_key : ℕ) : G :=
  channel_private_key • received_public_key

/-! ### Handshake lookup (encryption.py, get_handshake_for_address) -/

/-- Modelled from the spec: an observed handshake-type transaction — sender,
receiver, and the ECDH public key it published. -/
structure HandshakeTx where
  sender : String
  receiver : String
  ecdh_public_key : String
deriving DecidableEq

/-- Modelled from the spec: `get_handshake_for_address` (encryption.py
declares the Protocol only): look up, among previously observed
handshake-type transactions between the two addresses, the public key
published by each side of the channel; a side from which no handshake has
been observed yields none, not an exception. -/
def get_handshake_for_address (observed : List HandshakeTx)
    (channel_address channel_counterparty : String) : Option String × Option String :=
  (Option.map HandshakeTx.ecdh_public_key
    (observed.find? fun t => t.sender == channel_address && t.receiver == channel_counterparty),
   Option.map HandshakeTx.ecdh_public_key
    (observed.find? fun t => t.sender == channel_counterparty && t.receiver == channel_address))

/-! ### Encrypted-message processing (encryption.py, process_encrypted_message) -/

/-- Modelled from the spec: the marker that tags encrypted memo content so a
decoder can distinguish it from plaintext. -/
def ENCRYPTION_MARKER : List Char := "WHISPER__".data

/-- Modelled from the spec: `process_encrypted_message` (encryption.py
declares the Protocol only): inspect the marker; when absent, return the
message unchanged (plaintext pass-through); when present, attempt decryption
with the shared secret and report a decryption failure (Python ValueError,
modelled as Except.error) when the attempt fails.  The underlying cipher is
abstracted as the argument dec, returning none on failure. -/
def process_encrypted_message (dec : List Char → List Nat → Option (List Char))
    (message : List Char) (shared_secret : List Nat) : Except (List Char) (List Char) :=
  if ENCRYPTION_MARKER.isPrefixOf message then
    match dec (message.drop ENCRYPTION_MARKER.length) shared_secret with
    | some plaintext => Except.ok plaintext
    | none => Except.error ("decryption failed".data)
  else Except.ok message

/-! ### The ProcessingResult store (transaction_repository.py) -/

/-- Modelled from the spec: the ProcessingResult record of the data model —
(transaction hash, rule name, processed, success, structured result payload,
timestamp).  The repository implementation is not under src/;
transaction_repository.py declares only the Protocol. -/
structure ProcessingResult where
  tx_hash : String
  rule_name : String
  processed : Bool
  success : Bool
  result_payload : String
  timestamp : Nat
deriving DecidableEq

/-- Two results address the same (transaction hash, rule name) key. -/
def sameKey (a b : ProcessingResult) : Prop :=
  a.tx_hash = b.tx_hash ∧ a.rule_name = b.rule_name

instance (a b : ProcessingResult) : Decidable (sameKey a b) :=
  inferInstanceAs (Decidable (_ ∧ _))

/-- Modelled from the spec: the repository invariant — at most one stored
result per (transaction hash, rule name) pair. -/
def keysUnique (store : List ProcessingResult) : Prop :=
  store.Pairwise fun a b => ¬ sameKey a b

/-- Modelled from the spec: `store_processing_result` persists a computed
result keyed by transaction hash and rule name; a duplicate attempt for an
already-present key fails harmlessly (already-exists is treated as
already-resolved), so stored results are never overwritten. -/
def store_processing_result (store : List ProcessingResult)
    (result : ProcessingResult) : List ProcessingResult :=
  if store.any fun r => r.tx_hash == result.tx_hash && r.rule_name == result.rule_name then
    store
  else store ++ [result]

/-- Modelled from the spec: `reprocess_transactions` removes the stored
results for the given transaction hashes so the next pass re-evaluates
those transactions. -/
def reprocess_transactions (store : List ProcessingResult)
    (tx_hashes : List String) : List ProcessingResult :=
  store.filter fun r => !(tx_hashes.contains r.tx_hash)

/-- The mutations the repository interface offers for the result store. -/
inductive RepoOp where
  | storeResult (result : ProcessingResult)
  | reprocess (tx_hashes : List String)

/-- One repository mutation applied to the result store. -/
def applyRepoOp (store : List ProcessingResult) : RepoOp → List ProcessingResult
  | .storeResult r => store_processing_result store r
  | .reprocess hs => reprocess_transactions store hs

/-! ### Fetching unverified transactions (transaction_repository.py,
get_unverified_transactions) -/

/-- Modelled from the spec: a transaction row as fetched by the repository —
its hash, ledger close time, and whether a processing result has already been
recorded for it.  close_time_iso is modelled as a number (ISO strings compare
lexicographically in the same order). -/
structure TxRecord where
  tx_hash : String
  close_time_iso : Nat
  processed : Bool
deriving DecidableEq

/-- The ORDER BY clauses used with the interface. -/
inductive TxOrderBy where
  | close_time_iso_asc
  | close_time_iso_desc
deriving DecidableEq

/-- The declared default of the order_by parameter of
get_unverified_transactions (the SQL string close_time_iso ASC). -/
def default_order_by : TxOrderBy := TxOrderBy.close_time_iso_asc

/-- The declared default of the include_processed parameter of
get_unverified_transactions. -/
def default_include_processed : Bool := false

/-- Ascending close-time comparison, for ORDER BY close_time_iso ASC. -/
def closeTimeLE (a b : TxRecord) : Prop := a.close_time_iso ≤ b.close_time_iso

instance : DecidableRel closeTimeLE := fun _ _ => Nat.decLe _ _

instance : IsTotal TxRecord closeTimeLE := ⟨fun _ _ => Nat.le_total _ _⟩

instance : IsTrans TxRecord closeTimeLE := ⟨fun _ _ _ => Nat.le_trans⟩

/-- Descending close-time comparison, for ORDER BY close_time_iso DESC. -/
def closeTimeGE (a b : TxRecord) : Prop := b.close_time_iso ≤ a.close_time_iso

instance : DecidableRel closeTimeGE := fun _ _ => Nat.decLe _ _

/-- Modelled from the spec: `get_unverified_transactions`
(transaction_repository.py declares the Protocol only): fetch the stored
transactions, excluding already-processed ones unless include_processed is
set, order them by the requested ORDER BY clause, and apply the optional
limit. -/
def get_unverified_transactions (table : List TxRecord) (order_by : TxOrderBy)
    (limit : Option Nat) (include_processed : Bool) : List TxRecord :=
  let selected := if include_processed then table else table.filter fun t => !t.processed
  let sorted := match order_by with
    | TxOrderBy.close_time_iso_asc => List.insertionSort closeTimeLE selected
    | TxOrderBy.close_time_iso_desc => List.insertionSort closeTimeGE selected
  match limit with
  | none => sorted
  | some k => sorted.take k

/-! ### Reward-arbitration response parsing (rewards_manager.py) -/

/-- Modelled from the spec: the parser of the reward-arbitration response is
not under src/ (rewards_manager.py holds only the prompt text fixing the wire
format).  The format is two pipe-delimited rows — a Summary Judgment
justification and a Total PFT Rewarded integer up to the proposed amount; the
core accepts exactly that shape, rejects an amount above the proposed
maximum, and treats every other shape as a parse error. -/
def parseNatDigits (cs : List Char) : Option Nat :=
  if cs ≠ [] ∧ cs.all Char.isDigit then
    some (cs.foldl (fun acc c => 10 * acc + (c.toNat - 48)) 0)
  else none

/-- Decimal-integer parsing of the reward field: an optional leading minus
sign followed by one or more digits. -/
def parseIntText (s : String) : Option Int :=
  match s.data with
  | '-' :: rest => Option.map (fun n => -(n : Int)) (parseNatDigits rest)
  | cs => Option.map (fun n => (n : Int)) (parseNatDigits cs)

def parse_two_fields (proposed_max : Int)
    (label1 justification label2 amount_text : String) : Except String (String × Int) :=
  if label1 = "Summary Judgment" ∧ label2 = "Total PFT Rewarded" then
    match parseIntText amount_text with
    | some amount =>
      if amount ≤ proposed_max then Except.ok (justification, amount)
      else Except.error "reward exceeds the proposed amount"
    | none => Except.error "reward is not an integer"
  else Except.error "unexpected field labels"

/-- The response parser: exactly two rows are accepted, anything else is a
parse error. -/
def parse_reward_response (proposed_max : Int) (rows : List (String × String)) :
    Except String (String × Int) :=
  match rows with
  | [(label1, justification), (label2, amount_text)] =>
    parse_two_fields proposed_max label1 justification label2 amount_text
  | _ => Except.error "response is not two fields"

/-! ### extract_node_name (init_db.py, lines 36-46)

The Python function is
`postgres_key.replace('_testnet', '').replace('_postgresconnstring', '')`;
`str.replace` scans left to right and removes every non-overlapping
occurrence of the pattern, not only a suffix. -/

/-- Embedding of Python `s.replace(old, '')` for a pattern `p`, with a fuel
argument (one unit per character of the scanned string) making the definition
structurally recursive: scan left to right; where `p` matches, skip it and
continue after the match; otherwise keep the character and move on. -/
def pyRemoveAllFuel (p : List Char) : Nat → List Char → List Char
  | 0, s => s
  | _ + 1, [] => []
  | fuel + 1, c :: rest =>
    if p.isPrefixOf (c :: rest) then pyRemoveAllFuel p fuel ((c :: rest).drop p.length)
    else c :: pyRemoveAllFuel p fuel rest

/-- Python `s.replace(p, '')`: the fuel `s.length` always suffices because
every step consumes at least one character. -/
def pyRemoveAll (p s : List Char) : List Char := pyRemoveAllFuel p s.length s

/-- The first replacement pattern of extract_node_name. -/
def tnPat : List Char := "_testnet".data

/-- The second replacement pattern of extract_node_name. -/
def pcsPat : List Char := "_postgresconnstring".data

/-- Embedding of `extract_node_name` from init_db.py: remove every occurrence
of _testnet, then every occurrence of _postgresconnstring. -/
def extract_node_name (postgres_key : List Char) : List Char :=
  pyRemoveAll pcsPat (pyRemoveAll tnPat postgres_key)

/-- A pattern has no nonempty proper border: no nonempty proper suffix of it
is also one of its prefixes.  Such a pattern cannot overlap itself when it is
appended to a string it does not occur in. -/
def borderFree (p : List Char) : Prop :=
  ∀ k, k < p.length → 0 < k → p.drop k ≠ p.take (p.length - k)

/-- No nonempty proper suffix of the pattern `p` is a prefix of `v`: an
occurrence of `p` in `u ++ v` cannot start inside `u` and end inside `v`. -/
def noStraddle (p v : List Char) : Prop :=
  ∀ k, k < p.length → 0 < k → ¬ p.drop k <+: v

/-! ### init_database drop-tables guard (init_db.py, lines 267-354) -/

/-- The statements init_database executes against one node database,
abstracted by kind: DROP TABLE statements versus everything else the
function runs (CREATE ..., GRANT ..., backfill UPDATEs). -/
inductive SqlStmt where
  | dropTable (table_name : String)
  | otherStmt (text : String)
deriving DecidableEq

/-- Python str.lower, modelled on the character list of the confirmation
input (the inputs of interest are ASCII). -/
def pyLower (s : List Char) : List Char := s.map Char.toLower

/-- Embedding of the drop-and-initialize flow of init_database (init_db.py
lines 334-420) for one node database: when drop_tables is set the operator is
prompted, and unless the lowercased reply equals y the function returns
immediately with nothing executed; otherwise every listed table is dropped
and initialization proceeds.  When drop_tables is not set, initialization
proceeds with no drop statement. -/
def init_database_statements (drop_tables : Bool) (confirm : List Char)
    (table_names : List String) (init_stmts : List String) : List SqlStmt :=
  if drop_tables then
    if pyLower confirm ≠ "y".data then []
    else table_names.map SqlStmt.dropTable ++ init_stmts.map SqlStmt.otherStmt
  else init_stmts.map SqlStmt.otherStmt

/-! ## Theorems -/

/-- C7: the chunk-amount distribution policy selection enumerates exactly three
policies and no others: even split across all chunks, last-chunk-only, and
full-amount-each; the three are pairwise distinct (as are their wire values). -/
theorem distribution_policies_exactly_three :
    (∀ p : PFTSendDistribution,
      p = PFTSendDistribution.DISTRIBUTE_EVENLY ∨
      p = PFTSendDistribution.LAST_CHUNK_ONLY ∨
      p = PFTSendDistribution.FULL_AMOUNT_EACH) ∧
    PFTSendDistribution.DISTRIBUTE_EVENLY.value ≠ PFTSendDistribution.LAST_CHUNK_ONLY.value ∧
    PFTSendDistribution.DISTRIBUTE_EVENLY.value ≠ PFTSendDistribution.FULL_AMOUNT_EACH.value ∧
    PFTSendDistribution.LAST_CHUNK_ONLY.value ≠ PFTSendDistribution.FULL_AMOUNT_EACH.value := by
  refine ⟨fun p => ?_, by decide, by decide, by decide⟩
  cases p
  · exact Or.inl rfl
  · exact Or.inr (Or.inl rfl)
  · exact Or.inr (Or.inr rfl)

/-- C4 (code evaluation at the failing input): the compiled pattern recognises
the string v1x0.2024-01-01_12:00 even though no part of it literally begins
with v1.0. — the dot inside the interpolated version string is an unescaped
regex wildcard.  A string carrying a genuine literal v1.0. tag is of course
also recognised. -/
theorem unique_id_pattern_wildcard_bug :
    search_unique_id_v1 ("v1x0.2024-01-01_12:00".data) = true ∧
    ¬ ("v1.0.".data <:+: "v1x0.2024-01-01_12:00".data) ∧
    search_unique_id_v1 ("chunk v1.0.2024-01-01_12:00__AB rest".data) = true := by
  refine ⟨by decide, by decide, by decide⟩

/-- C2: for every pair of matching ECDH key pairs (skA, pkA) and (skB, pkB),
shared-secret derivation is commutative across the two parties:
get_shared_secret pkB skA = get_shared_secret pkA skB. -/
theorem shared_secret_commutative (G : Type) [AddCommMonoid G] (g : G)
    (skA skB : ℕ) (pkA pkB : G)
    (hA : pkA = public_key g skA) (hB : pkB = public_key g skB) :
    get_shared_secret pkB skA = get_shared_secret pkA skB := by
  subst hA; subst hB
  unfold get_shared_secret public_key
  rw [smul_smul, smul_smul, Nat.mul_comm]

/-- Witness for C2 at a concrete instance: the integers as the group,
generator 3, private keys 2 and 5. -/
theorem shared_secret_commutative_witness :
    get_shared_secret (public_key (3 : ℤ) 5) 2 = get_shared_secret (public_key (3 : ℤ) 2) 5 :=
  shared_secret_commutative ℤ 3 2 5 (public_key 3 2) (public_key 3 5) rfl rfl

theorem isInf_cons {p rest : List Char} (c : Char) (h : p <:+: rest) :
    p <:+: c :: rest := by
  obtain ⟨s, t, hst⟩ := h
  refine ⟨c :: s, t, ?_⟩
  simp only [List.cons_append]
  rw [hst]

theorem isPrefixOf_self (l : List Char) : l.isPrefixOf l = true := by
  induction l with
  | nil => rfl
  | cons a as ih => simp [List.isPrefixOf, ih]

/-- Splitting an occurrence of `p` at the front of `w ++ v`: either `p` fits
inside `w` (so it occurs in `w`), or its tail past `w` is a prefix of `v`. -/
theorem split_of_append_head {p w v t : List Char} (ht : p ++ t = w ++ v) :
    (p.length ≤ w.length → p <:+: w) ∧
    (w.length ≤ p.length → p.drop w.length <+: v) := by
  constructor
  · intro hle
    have h1 := congrArg (List.take p.length) ht
    rw [List.take_left] at h1
    rw [List.take_append_of_le_length hle] at h1
    refine ⟨[], w.drop p.length, ?_⟩
    rw [List.nil_append]
    nth_rewrite 1 [h1]
    exact List.take_append_drop p.length w
  · intro hle
    have h1 := congrArg (List.drop w.length) ht
    rw [List.drop_append_of_le_length hle, List.drop_left] at h1
    exact ⟨t, h1⟩

/-- If the pattern occurs nowhere in the string, Python replace leaves the
string unchanged. -/
theorem pyRemoveAllFuel_no_occurrence {p : List Char} :
    ∀ fuel (s : List Char), s.length ≤ fuel → ¬ p <:+: s →
      pyRemoveAllFuel p fuel s = s := by
  intro fuel
  induction fuel with
  | zero =>
    intro s hs _
    have hnil : s = [] := List.eq_nil_of_length_eq_zero (Nat.le_zero.mp hs)
    rw [hnil]
    rfl
  | succ f ih =>
    intro s hs hocc
    cases s with
    | nil => rfl
    | cons c rest =>
      have hP : ¬ p.isPrefixOf (c :: rest) = true := by
        intro hpre
        simp at hpre
        obtain ⟨t, ht⟩ := hpre
        exact hocc ⟨[], t, by simp [ht]⟩
      rw [pyRemoveAllFuel, if_neg hP]
      have hrest : ¬ p <:+: rest := fun h => hocc (isInf_cons c h)
      have hlen : rest.length ≤ f := by
        simpa using Nat.le_of_succ_le_succ (by simpa using hs)
      rw [ih rest hlen hrest]

theorem pyRemoveAllFuel_nil (p : List Char) (fuel : Nat) :
    pyRemoveAllFuel p fuel [] = [] := by
  cases fuel <;> rfl

/-- Python replace erases the pattern itself completely. -/
theorem pyRemoveAllFuel_self {p : List Char} (hp : p ≠ []) :
    ∀ fuel, p.length ≤ fuel → pyRemoveAllFuel p fuel p = [] := by
  intro fuel hf
  obtain ⟨a, as, rfl⟩ := List.exists_cons_of_ne_nil hp
  cases fuel with
  | zero => simp at hf
  | succ f =>
    rw [pyRemoveAllFuel, if_pos (isPrefixOf_self (a :: as)), List.drop_length]
    exact pyRemoveAllFuel_nil _ _

/-- For a border-free pattern appended to a string it does not occur in,
Python replace removes exactly the appended copy. -/
theorem pyRemoveAllFuel_append_self {p : List Char} (hp : p ≠ []) (hb : borderFree p) :
    ∀ (w : List Char) (fuel : Nat), (w ++ p).length ≤ fuel → ¬ p <:+: w →
      pyRemoveAllFuel p fuel (w ++ p) = w := by
  intro w
  induction w with
  | nil =>
    intro fuel hf _
    rw [List.nil_append]
    rw [List.nil_append] at hf
    exact pyRemoveAllFuel_self hp fuel hf
  | cons c w' ih =>
    intro fuel hf hocc
    cases fuel with
    | zero => simp at hf
    | succ f =>
      have hP : ¬ p.isPrefixOf (c :: (w' ++ p)) = true := by
        intro hpre
        simp at hpre
        obtain ⟨t, ht⟩ := hpre
        rw [← List.cons_append] at ht
        have hsplit := split_of_append_head ht
        rcases le_or_lt p.length (c :: w').length with hle | hlt
        · exact hocc (hsplit.1 hle)
        · obtain ⟨u, hu⟩ := hsplit.2 (Nat.le_of_lt hlt)
          have htake := congrArg (List.take (p.length - (c :: w').length)) hu
          rw [List.take_left' (by rw [List.length_drop])] at htake
          exact hb (c :: w').length hlt (by simp) htake
      rw [List.cons_append, pyRemoveAllFuel, if_neg hP]
      have hf' : (w' ++ p).length ≤ f := by
        rw [List.cons_append] at hf
        simpa using Nat.le_of_succ_le_succ hf
      have hocc' : ¬ p <:+: w' := fun h => hocc (isInf_cons c h)
      rw [ih f hf' hocc']

/-- An occurrence of the pattern in `u ++ v` is impossible when it occurs in
neither part and cannot straddle the boundary. -/
theorem no_occurrence_append {p v : List Char} (hv : ¬ p <:+: v) (hns : noStraddle p v) :
    ∀ u : List Char, ¬ p <:+: u → ¬ p <:+: u ++ v := by
  intro u
  induction u with
  | nil =>
    intro _ h
    rw [List.nil_append] at h
    exact hv h
  | cons c u' ih =>
    intro hu h
    rw [List.cons_append] at h
    obtain ⟨s, t, hst⟩ := h
    cases s with
    | nil =>
      rw [List.nil_append] at hst
      rw [← List.cons_append] at hst
      have hsplit := split_of_append_head hst
      rcases le_or_lt p.length (c :: u').length with hle | hlt
      · exact hu (hsplit.1 hle)
      · exact hns (c :: u').length hlt (by simp) (hsplit.2 (Nat.le_of_lt hlt))
    | cons d s' =>
      rw [List.cons_append, List.cons_append] at hst
      injection hst with hhead htail
      exact ih (fun hh => hu (isInf_cons c hh)) ⟨s', t, htail⟩

/-- C9: for every node name n containing neither _testnet nor
_postgresconnstring, extract_node_name returns exactly n on both
n ++ _postgresconnstring and n ++ _postgresconnstring_testnet; and the
replacements are not limited to suffixes — occurrences in the middle of the
key are removed as well (third conjunct). -/
theorem extract_node_name_strips_credential_key (n : List Char)
    (h1 : ¬ tnPat <:+: n) (h2 : ¬ pcsPat <:+: n) :
    extract_node_name (n ++ pcsPat) = n ∧
    extract_node_name (n ++ pcsPat ++ tnPat) = n ∧
    extract_node_name ("a_testnetb_postgresconnstringc".data) = "abc".data := by
  have hpcs_ne : pcsPat ≠ [] := by decide
  have htn_ne : tnPat ≠ [] := by decide
  have hb_pcs : borderFree pcsPat := by unfold borderFree; decide
  have hb_tn : borderFree tnPat := by unfold borderFree; decide
  have hnostrad : noStraddle tnPat pcsPat := by unfold noStraddle; decide
  have htn_pcs : ¬ tnPat <:+: pcsPat := by decide
  have hno_mid : ¬ tnPat <:+: (n ++ pcsPat) := no_occurrence_append htn_pcs hnostrad n h1
  refine ⟨?_, ?_, by decide⟩
  · show pyRemoveAll pcsPat (pyRemoveAll tnPat (n ++ pcsPat)) = n
    simp only [pyRemoveAll]
    rw [pyRemoveAllFuel_no_occurrence _ _ le_rfl hno_mid]
    exact pyRemoveAllFuel_append_self hpcs_ne hb_pcs n _ le_rfl h2
  · show pyRemoveAll pcsPat (pyRemoveAll tnPat (n ++ pcsPat ++ tnPat)) = n
    simp only [pyRemoveAll]
    rw [pyRemoveAllFuel_append_self htn_ne hb_tn (n ++ pcsPat) _ le_rfl hno_mid]
    exact pyRemoveAllFuel_append_self hpcs_ne hb_pcs n _ le_rfl h2

/-- Witness for C9 at the node name mynode. -/
theorem extract_node_name_strips_credential_key_witness :
    extract_node_name ("mynode".data ++ pcsPat) = "mynode".data ∧
    extract_node_name ("mynode".data ++ pcsPat ++ tnPat) = "mynode".data ∧
    extract_node_name ("a_testnetb_postgresconnstringc".data) = "abc".data :=
  extract_node_name_strips_credential_key ("mynode".data) (by decide) (by decide)

/-- C3: for every message and shared secret, a message without the encryption
marker passes through unchanged, and a marked message whose decryption fails
yields a reported decryption failure — never a plaintext result. -/
theorem process_encrypted_message_spec
    (dec : List Char → List Nat → Option (List Char))
    (message : List Char) (shared_secret : List Nat) :
    (ENCRYPTION_MARKER.isPrefixOf message = false →
      process_encrypted_message dec message shared_secret = Except.ok message) ∧
    (ENCRYPTION_MARKER.isPrefixOf message = true →
      dec (message.drop ENCRYPTION_MARKER.length) shared_secret = none →
      process_encrypted_message dec message shared_secret
          = Except.error ("decryption failed".data) ∧
      ∀ plaintext,
        process_encrypted_message dec message shared_secret ≠ Except.ok plaintext) := by
  constructor
  · intro h
    simp [process_encrypted_message, h]
  · intro h hd
    constructor
    · simp [process_encrypted_message, h, hd]
    · intro plaintext
      simp [process_encrypted_message, h, hd]

/-- Witness for C3: a failing cipher, one unmarked and one marked message. -/
theorem process_encrypted_message_spec_witness :
    process_encrypted_message (fun _ _ => none) ("hello".data) [1]
      = Except.ok ("hello".data) ∧
    process_encrypted_message (fun _ _ => none) ("WHISPER__zzz".data) [1]
      = Except.error ("decryption failed".data) := by
  have h1 := process_encrypted_message_spec (fun _ _ => none) ("hello".data) [1]
  have h2 := process_encrypted_message_spec (fun _ _ => none) ("WHISPER__zzz".data) [1]
  exact ⟨h1.1 (by decide), (h2.2 (by decide) rfl).1⟩

/-- C5: get_handshake_for_address returns a pair of optional keys; with a
handshake observed from A to B and none from B to A, the first component is
a published key and the second is none (channel pending), not an error. -/
theorem handshake_missing_side_is_none (observed : List HandshakeTx)
    (A B : String) (tA : HandshakeTx) (htA : tA ∈ observed)
    (hsnd : tA.sender = A) (hrcv : tA.receiver = B)
    (hnoB : ∀ t, t ∈ observed → ¬ (t.sender = B ∧ t.receiver = A)) :
    (∃ pk, (get_handshake_for_address observed A B).1 = some pk) ∧
    (get_handshake_for_address observed A B).2 = none := by
  constructor
  · have hfind : (observed.find? fun t => t.sender == A && t.receiver == B).isSome = true := by
      rw [List.find?_isSome]
      exact ⟨tA, htA, by simp [hsnd, hrcv]⟩
    obtain ⟨t0, ht0⟩ := Option.isSome_iff_exists.mp hfind
    refine ⟨t0.ecdh_public_key, ?_⟩
    show Option.map HandshakeTx.ecdh_public_key
      (observed.find? fun t => t.sender == A && t.receiver == B) = _
    rw [ht0]
    rfl
  · have hfind : (observed.find? fun t => t.sender == B && t.receiver == A) = none := by
      rw [List.find?_eq_none]
      intro t ht
      simp only [Bool.and_eq_true, beq_iff_eq, not_and]
      intro hb ha
      exact hnoB t ht ⟨hb, ha⟩
    show Option.map HandshakeTx.ecdh_public_key
      (observed.find? fun t => t.sender == B && t.receiver == A) = none
    rw [hfind]
    rfl

/-- Witness for C5: one handshake from rA to rB, nothing yet from rB. -/
theorem handshake_missing_side_is_none_witness :
    (∃ pk, (get_handshake_for_address [⟨"rA", "rB", "pkA"⟩] "rA" "rB").1 = some pk) ∧
    (get_handshake_for_address [⟨"rA", "rB", "pkA"⟩] "rA" "rB").2 = none :=
  handshake_missing_side_is_none [⟨"rA", "rB", "pkA"⟩] "rA" "rB" ⟨"rA", "rB", "pkA"⟩
    (by simp) rfl rfl (by decide)

/-- In a store whose (hash, rule) keys are pairwise distinct, two members with
the same key are the same record. -/
theorem keysUnique_at_most_one :
    ∀ (s : List ProcessingResult), keysUnique s →
      ∀ r1, r1 ∈ s → ∀ r2, r2 ∈ s → sameKey r1 r2 → r1 = r2 := by
  intro s
  induction s with
  | nil =>
    intro _ r1 h1
    exact absurd h1 (List.not_mem_nil r1)
  | cons a t ih =>
    intro h r1 h1 r2 h2 hk
    obtain ⟨ha, ht⟩ := List.pairwise_cons.mp h
    rcases List.mem_cons.mp h1 with h1a | h1t
    · subst h1a
      rcases List.mem_cons.mp h2 with h2a | h2t
      · rw [h2a]
      · exact absurd hk (ha r2 h2t)
    · rcases List.mem_cons.mp h2 with h2a | h2t
      · subst h2a
        exact absurd ⟨hk.1.symm, hk.2.symm⟩ (ha r1 h1t)
      · exact ih ht r1 h1t r2 h2t hk

/-- C1: in a store satisfying the uniqueness invariant — at most one
ProcessingResult per (transaction hash, rule name) pair — every repository
mutation preserves the invariant; storing a result never removes or changes
an existing one (a duplicate attempt leaves the store unchanged); and the
only removing operation, an explicit reprocessing request, deletes exactly
the stored results whose transaction hash is among the given hashes. -/
theorem processing_result_exactly_once (s : List ProcessingResult) (h : keysUnique s) :
    (∀ r1, r1 ∈ s → ∀ r2, r2 ∈ s → sameKey r1 r2 → r1 = r2) ∧
    (∀ op, keysUnique (applyRepoOp s op)) ∧
    (∀ r, r ∈ s → ∀ res, r ∈ store_processing_result s res) ∧
    (∀ hashes r, r ∈ reprocess_transactions s hashes ↔ r ∈ s ∧ r.tx_hash ∉ hashes) := by
  refine ⟨keysUnique_at_most_one s h, ?_, ?_, ?_⟩
  · intro op
    cases op with
    | storeResult res =>
      show keysUnique (store_processing_result s res)
      unfold store_processing_result
      split
      · exact h
      · rename_i hany
        unfold keysUnique
        rw [List.pairwise_append]
        refine ⟨h, List.pairwise_singleton _ _, ?_⟩
        intro a ha b hb
        rw [List.mem_singleton] at hb
        subst hb
        intro hk
        apply hany
        rw [List.any_eq_true]
        exact ⟨a, ha, by simp [hk.1, hk.2]⟩
    | reprocess hashes =>
      show keysUnique (reprocess_transactions s hashes)
      unfold keysUnique reprocess_transactions
      exact List.Pairwise.sublist (List.filter_sublist s) h
  · intro r hr res
    unfold store_processing_result
    split
    · exact hr
    · exact List.mem_append_left _ hr
  · intro hashes r
    unfold reprocess_transactions
    rw [List.mem_filter]
    simp

/-- Witness for C1 on a one-record store. -/
theorem processing_result_exactly_once_witness :
    (∀ r1, r1 ∈ [(⟨"h1", "r1", true, true, "ok", 1⟩ : ProcessingResult)] →
      ∀ r2, r2 ∈ [(⟨"h1", "r1", true, true, "ok", 1⟩ : ProcessingResult)] →
      sameKey r1 r2 → r1 = r2) ∧
    (∀ op, keysUnique (applyRepoOp [⟨"h1", "r1", true, true, "ok", 1⟩] op)) ∧
    (∀ r, r ∈ [(⟨"h1", "r1", true, true, "ok", 1⟩ : ProcessingResult)] →
      ∀ res, r ∈ store_processing_result [⟨"h1", "r1", true, true, "ok", 1⟩] res) ∧
    (∀ hashes r, r ∈ reprocess_transactions [⟨"h1", "r1", true, true, "ok", 1⟩] hashes
      ↔ r ∈ [(⟨"h1", "r1", true, true, "ok", 1⟩ : ProcessingResult)] ∧ r.tx_hash ∉ hashes) :=
  processing_result_exactly_once [⟨"h1", "r1", true, true, "ok", 1⟩]
    (List.pairwise_singleton _ _)

/-- C6: with its declared defaults (ORDER BY close_time_iso ASC,
include_processed false) get_unverified_transactions returns exactly the
not-yet-processed transactions, sorted by ledger close time ascending;
passing include_processed true includes every transaction regardless of
processing status. -/
theorem unverified_transactions_default_behaviour (table : List TxRecord) :
    default_order_by = TxOrderBy.close_time_iso_asc ∧
    default_include_processed = false ∧
    List.Sorted closeTimeLE
      (get_unverified_transactions table default_order_by none default_include_processed) ∧
    (∀ t, t ∈ get_unverified_transactions table default_order_by none default_include_processed
      ↔ t ∈ table ∧ t.processed = false) ∧
    (∀ t, t ∈ get_unverified_transactions table default_order_by none true ↔ t ∈ table) := by
  refine ⟨rfl, rfl, ?_, ?_, ?_⟩
  · show List.Sorted closeTimeLE
      (List.insertionSort closeTimeLE (table.filter fun t => !t.processed))
    exact List.sorted_insertionSort closeTimeLE _
  · intro t
    show t ∈ List.insertionSort closeTimeLE (table.filter fun t => !t.processed) ↔ _
    rw [List.mem_insertionSort, List.mem_filter]
    simp
  · intro t
    show t ∈ List.insertionSort closeTimeLE table ↔ _
    rw [List.mem_insertionSort]

/-- Witness for C6 on a two-row table with one processed row. -/
theorem unverified_transactions_default_behaviour_witness :
    List.Sorted closeTimeLE
      (get_unverified_transactions [⟨"a", 2, false⟩, ⟨"b", 1, true⟩]
        default_order_by none default_include_processed) ∧
    ((⟨"b", 1, true⟩ : TxRecord) ∈
        get_unverified_transactions [⟨"a", 2, false⟩, ⟨"b", 1, true⟩]
          default_order_by none true
      ↔ (⟨"b", 1, true⟩ : TxRecord) ∈
          [(⟨"a", 2, false⟩ : TxRecord), ⟨"b", 1, true⟩]) := by
  have h := unverified_transactions_default_behaviour [⟨"a", 2, false⟩, ⟨"b", 1, true⟩]
  exact ⟨h.2.2.1, h.2.2.2.2 _⟩

/-- C8: a response accepted by the reward parser has exactly the two fields —
the Summary Judgment justification text and the integer Total PFT Rewarded —
and the accepted integer never exceeds the proposed maximum; a response that
is not two fields is a parse error. -/
theorem reward_response_two_fields (proposed_max : Int) (rows : List (String × String))
    (justification : String) (amount : Int) :
    (parse_reward_response proposed_max rows = Except.ok (justification, amount) →
      amount ≤ proposed_max ∧
      ∃ amount_text, rows = [("Summary Judgment", justification),
          ("Total PFT Rewarded", amount_text)] ∧ parseIntText amount_text = some amount) ∧
    (rows.length ≠ 2 →
      ∃ e, parse_reward_response proposed_max rows = Except.error e) := by
  constructor
  · intro hok
    rcases rows with _ | ⟨⟨l1, j1⟩, _ | ⟨⟨l2, a2⟩, _ | ⟨⟨l3, a3⟩, rest⟩⟩⟩
    · simp [parse_reward_response] at hok
    · simp [parse_reward_response] at hok
    · replace hok : parse_two_fields proposed_max l1 j1 l2 a2
          = Except.ok (justification, amount) := hok
      unfold parse_two_fields at hok
      by_cases hlab : l1 = "Summary Judgment" ∧ l2 = "Total PFT Rewarded"
      · rw [if_pos hlab] at hok
        rcases hto : parseIntText a2 with _ | amt
        · simp only [hto] at hok
          exact absurd hok (by simp)
        · simp only [hto] at hok
          by_cases hle : amt ≤ proposed_max
          · rw [if_pos hle] at hok
            simp only [Except.ok.injEq, Prod.mk.injEq] at hok
            obtain ⟨hj, ha⟩ := hok
            subst hj
            subst ha
            exact ⟨hle, a2, by rw [hlab.1, hlab.2], hto⟩
          · rw [if_neg hle] at hok
            simp at hok
      · rw [if_neg hlab] at hok
        simp at hok
    · simp [parse_reward_response] at hok
  · intro hlen
    rcases rows with _ | ⟨⟨l1, j1⟩, _ | ⟨⟨l2, a2⟩, _ | ⟨⟨l3, a3⟩, rest⟩⟩⟩
    · exact ⟨_, rfl⟩
    · exact ⟨_, rfl⟩
    · simp at hlen
    · exact ⟨_, rfl⟩

/-- Witness for C8: an accepted two-field response within the maximum, and a
rejected empty response. -/
theorem reward_response_two_fields_witness :
    ((50 : Int) ≤ 100 ∧
      ∃ amount_text,
        ([("Summary Judgment", "good work"), ("Total PFT Rewarded", "50")] :
            List (String × String))
          = [("Summary Judgment", "good work"), ("Total PFT Rewarded", amount_text)] ∧
        parseIntText amount_text = some 50) ∧
    (∃ e, parse_reward_response 100 [] = Except.error e) := by
  have hto : parseIntText "50" = some (50 : Int) := by decide
  have hok : parse_reward_response 100
      [("Summary Judgment", "good work"), ("Total PFT Rewarded", "50")]
      = Except.ok ("good work", (50 : Int)) := by
    show parse_two_fields 100 "Summary Judgment" "good work" "Total PFT Rewarded" "50" = _
    unfold parse_two_fields
    rw [if_pos ⟨rfl, rfl⟩]
    simp only [hto]
    rw [if_pos (by norm_num)]
  have h1 := reward_response_two_fields 100
    [("Summary Judgment", "good work"), ("Total PFT Rewarded", "50")] "good work" 50
  have h2 := reward_response_two_fields 100 [] "good work" 50
  exact ⟨h1.1 hok, h2.2 (by decide)⟩

/-- C10 counterexample: with drop_tables set, the confirmation input Y — a
string other than the exact y the claim names — still drops the tables,
because the code lowercases the reply before comparing it with y. -/
theorem init_database_drops_on_capital_y :
    ("Y".data ≠ "y".data) ∧
    init_database_statements true ("Y".data) ["postfiat_tx_cache"] []
      = [SqlStmt.dropTable "postfiat_tx_cache"] := by
  exact ⟨by decide, by decide⟩

/-- C10 (amended): with drop_tables false no DROP TABLE statement is ever
executed; with drop_tables true, tables are dropped only when the lowercased
confirmation input is exactly y (so y or Y confirm), and on any other input
the function returns with nothing executed at all. -/
theorem init_database_drop_guard (confirm : List Char)
    (table_names : List String) (init_stmts : List String) :
    (∀ t, SqlStmt.dropTable t ∉ init_database_statements false confirm table_names init_stmts) ∧
    (pyLower confirm ≠ "y".data →
      init_database_statements true confirm table_names init_stmts = []) ∧
    (pyLower confirm = "y".data →
      ∀ t, SqlStmt.dropTable t ∈ init_database_statements true confirm table_names init_stmts
        ↔ t ∈ table_names) := by
  refine ⟨?_, ?_, ?_⟩
  · intro t ht
    simp [init_database_statements] at ht
  · intro hne
    show (if pyLower confirm ≠ "y".data then ([] : List SqlStmt)
      else table_names.map SqlStmt.dropTable ++ init_stmts.map SqlStmt.otherStmt) = []
    rw [if_pos hne]
  · intro hy t
    show SqlStmt.dropTable t ∈
      (if pyLower confirm ≠ "y".data then ([] : List SqlStmt)
        else table_names.map SqlStmt.dropTable ++ init_stmts.map SqlStmt.otherStmt) ↔ _
    rw [if_neg (not_not_intro hy), List.mem_append]
    simp [List.mem_map]

/-- Witness for C10 at the concrete confirmation inputs n and y. -/
theorem init_database_drop_guard_witness :
    (init_database_statements true ("n".data) ["t1"] ["c1"] = []) ∧
    (SqlStmt.dropTable "t1" ∈ init_database_statements true ("y".data) ["t1"] ["c1"]
      ↔ "t1" ∈ ["t1"]) := by
  have h1 := init_database_drop_guard ("n".data) ["t1"] ["c1"]
  have h2 := init_database_drop_guard ("y".data) ["t1"] ["c1"]
  exact ⟨h1.2.1 (by decide), h2.2.2 (by decide) "t1"⟩
